import Mathlib

/-!
# Verification development for `pkg/dns/server.go`

A shallow embedding of the DNS responder of package `dns`: the label-sequence
codec (`readDomainName`, `writeDomainName`), the lookup (`dbLookup`) and the
per-datagram responder (`HandleDNSClient`), followed by theorems about them.

Conventions of the embedding.

* A Go `byte` is a `Fin 256`; a Go `string` and a `[]byte` are `List Byte`.
* A `uint16`/`uint32` value is a `Nat`; every conversion that truncates in Go
  is written with an explicit `%`.
* The unread part of a `bytes.Buffer` is the list of bytes still to be read;
  the written part of a response buffer is the list of bytes written so far.
* A Go `error` result is an `Option GoError` (`none` is `nil`).
* A run-time panic is the outcome `Outcome.panic`.
-/

namespace Dns

/-- One octet. -/
abbrev Byte := Fin 256

/-- The separator of labels in the textual form of a domain name, the byte of `"."`. -/
def dot : Byte := 46

/-- Go error values that the codec can return. -/
inductive GoError where
  | EOF
  | ErrUnexpectedEOF
  deriving DecidableEq

/-- Result of a computation that may end in a run-time panic (an index or a
slice bound out of range) or, for the bounded loop of `readDomainName`, that
may run out of the iteration budget given to the model. -/
inductive Outcome (α : Type) where
  | ok (value : α)
  | panic
  | outOfFuel
  deriving DecidableEq

/-- DNSHeader describes the request/response DNS header (six `uint16` fields). -/
structure DNSHeader where
  TransactionID : Nat
  Flags : Nat
  NumQuestions : Nat
  NumAnswers : Nat
  NumAuthorities : Nat
  NumAdditionals : Nat
  deriving DecidableEq

/-- DNSResourceRecord describes individual records in the request and response
of the DNS payload body. The Go field `Type` is `Type_` here. -/
structure DNSResourceRecord where
  DomainName : List Byte
  Type_ : Nat
  Class : Nat
  TimeToLive : Nat
  ResourceDataLength : Nat
  ResourceData : List Byte
  deriving DecidableEq

/-- A host address. -/
def TypeA : Nat := 1

/-- The Internet. -/
def ClassINET : Nat := 1

/-- The constant `1 << 15`. -/
def FlagResponse : Nat := 2 ^ 15

/-- One binding of the record store: the element type of what `GetNames`
returns, with the two fields `dbLookup` reads. -/
structure NameBinding where
  Name : List Byte
  Address : List Byte
  deriving DecidableEq

/-! ## Library functions of Go used by the code -/

/-- The Go conversion `byte(n)` of an `int`. -/
def toByte (n : Nat) : Byte := ⟨n % 256, Nat.mod_lt n (by decide)⟩

/-- The function `bytes.Buffer.ReadByte`: the next byte and the rest, or
`(0, io.EOF)` on an empty buffer. -/
def ReadByte (buf : List Byte) : Byte × Option GoError × List Byte :=
  match buf with
  | [] => (0, some GoError.EOF, [])
  | b :: rest => (b, none, rest)

/-- The function `bytes.Buffer.Next(n)`: the next `n` bytes, or all that is
left when fewer than `n` remain, and the rest of the buffer. -/
def Next (n : Nat) (buf : List Byte) : List Byte × List Byte :=
  (buf.take n, buf.drop n)

/-- The function `strings.Split(s, ".")`: the substrings between the dots;
the empty string gives one empty substring. -/
def stringsSplit : List Byte → List (List Byte)
  | [] => [[]]
  | c :: cs =>
    if c = dot then [] :: stringsSplit cs
    else
      match stringsSplit cs with
      | [] => [[c]]
      | l :: ls => (c :: l) :: ls

/-- The function `strings.Contains(s, substr)`: whether `substr` occurs in `s`
as a contiguous run of bytes. -/
def stringsContains : List Byte → List Byte → Bool
  | [], substr => substr.isEmpty
  | c :: s, substr => substr.isPrefixOf (c :: s) || stringsContains s substr

/-- Big-endian value of two bytes. -/
def be16 (hi lo : Byte) : Nat := hi.val * 256 + lo.val

/-- The function `binary.BigEndian.Uint16(b)`: it reads `b[0]` and `b[1]` and
panics with an index out of range when `b` has fewer than two bytes. -/
def Uint16 (b : List Byte) : Outcome Nat :=
  match b with
  | hi :: lo :: _ => Outcome.ok (be16 hi lo)
  | _ => Outcome.panic

/-- The call `binary.Read(requestBuffer, binary.BigEndian, &queryHeader)`: with
twelve bytes or more it decodes six big-endian `uint16` fields; with fewer it
consumes what is there, returns an error and leaves the header zero. -/
def binaryReadHeader (buf : List Byte) : DNSHeader × Option GoError × List Byte :=
  match buf with
  | b0 :: b1 :: b2 :: b3 :: b4 :: b5 :: b6 :: b7 :: b8 :: b9 :: b10 :: b11 :: rest =>
    ({ TransactionID := be16 b0 b1, Flags := be16 b2 b3, NumQuestions := be16 b4 b5,
       NumAnswers := be16 b6 b7, NumAuthorities := be16 b8 b9,
       NumAdditionals := be16 b10 b11 }, none, rest)
  | [] => (⟨0, 0, 0, 0, 0, 0⟩, some GoError.EOF, [])
  | _ => (⟨0, 0, 0, 0, 0, 0⟩, some GoError.ErrUnexpectedEOF, [])

/-- The Go slice expression `s[12:16]`: the four bytes at 12..15, and a panic
(slice bounds out of range) when `s` has fewer than sixteen bytes. -/
def slice12to16 (s : List Byte) : Outcome (List Byte) :=
  if 16 ≤ s.length then Outcome.ok ((s.drop 12).take 4) else Outcome.panic

/-! ## The binary write helper -/

/-- Modelled from the spec: the helper `Write` of package `dns` is not among
the source files. Section 4.1: "write(cursor, value) appends a value's
big-endian byte representation for fixed-width unsigned integers (16- and
32-bit)". This is the 16-bit case. -/
def writeUint16 (buf : List Byte) (v : Nat) : List Byte :=
  buf ++ [toByte (v / 256), toByte v]

/-- Modelled from the spec: the helper `Write` of package `dns` is not among
the source files. Section 4.1, the 32-bit case of the big-endian write. -/
def writeUint32 (buf : List Byte) (v : Nat) : List Byte :=
  buf ++ [toByte (v / 16777216), toByte (v / 65536), toByte (v / 256), toByte v]

/-- Modelled from the spec: the helper `Write` of package `dns` is not among
the source files. Section 4.1: write "appends a byte sequence verbatim". -/
def writeBytes (buf : List Byte) (data : List Byte) : List Byte :=
  buf ++ data

/-- Modelled from the spec: the helper `Write` of package `dns` is not among
the source files. Section 4.3: the header is "exactly six fixed-width fields
in a fixed order: transaction id (16-bit), flags (16-bit), then the four
16-bit section counts in the fixed order questions, answers, authorities,
additionals", twelve bytes. -/
def writeHeader (buf : List Byte) (h : DNSHeader) : List Byte :=
  writeUint16 (writeUint16 (writeUint16 (writeUint16 (writeUint16 (writeUint16 buf
    h.TransactionID) h.Flags) h.NumQuestions) h.NumAnswers) h.NumAuthorities) h.NumAdditionals

/-! ## `readDomainName` and `writeDomainName` -/

/-- The `for` loop of `readDomainName`, entered with the byte and the error of
the last `ReadByte`. Each iteration takes one label with `Next`, joins it to
the name and reads the next length byte. `fuel` bounds the iterations. -/
def readDomainNameLoop : Nat → List Byte → Byte → Option GoError → List Byte →
    Outcome ((List Byte × Option GoError) × List Byte)
  | fuel, domainName, b, err, buf =>
    if b ≠ 0 ∧ err = none then
      match fuel with
      | 0 => Outcome.outOfFuel
      | fuel + 1 =>
        let labelLength := b.val
        let (labelBytes, buf1) := Next labelLength buf
        let labelName := labelBytes
        let domainName1 :=
          if domainName.length = 0 then labelName else domainName ++ [dot] ++ labelName
        let (b1, err1, buf2) := ReadByte buf1
        readDomainNameLoop fuel domainName1 b1 err1 buf2
    else Outcome.ok ((domainName, err), buf)

/-- The function `readDomainName`: the decoded name, the error, and the unread
rest of the request buffer. The loop gets one iteration for every byte of the
buffer, which is more than it can use. -/
def readDomainName (requestBuffer : List Byte) :
    Outcome ((List Byte × Option GoError) × List Byte) :=
  let (b, err, buf) := ReadByte requestBuffer
  readDomainNameLoop requestBuffer.length [] b err buf

/-- The function `bytes.Buffer.WriteByte`: it appends the byte; the error it
returns is always `nil`. -/
def WriteByte (buf : List Byte) (c : Byte) : List Byte × Option GoError :=
  (buf ++ [c], none)

/-- The body of the `for` loop of `writeDomainName`: the length of the label
as one byte, then the bytes of the label. -/
def writeLabel (responseBuffer : List Byte) (label : List Byte) : List Byte :=
  let labelLength := label.length
  let labelBytes := label
  (WriteByte responseBuffer (toByte labelLength)).1 ++ labelBytes

/-- The function `writeDomainName`: the response buffer after the write, and
the error returned, which is that of the last `WriteByte`. -/
def writeDomainName (responseBuffer : List Byte) (domainName : List Byte) :
    List Byte × Option GoError :=
  let labels := stringsSplit domainName
  let buf := labels.foldl writeLabel responseBuffer
  WriteByte buf 0

/-! ## `dbLookup` -/

/-- The answer record that `dbLookup` appends for a matching binding, given
the four bytes `name.Address[12:16]`. -/
def answerRecord (name : NameBinding) (data : List Byte) : DNSResourceRecord :=
  { DomainName := name.Name, Type_ := TypeA, Class := ClassINET, TimeToLive := 31337,
    ResourceData := data, ResourceDataLength := 4 }

/-- The `for _, name := range names` loop of `dbLookup`, with the answers
appended so far. -/
def dbLookupLoop (queryResourceRecord : DNSResourceRecord) :
    List NameBinding → List DNSResourceRecord → Outcome (List DNSResourceRecord)
  | [], answerResourceRecords => Outcome.ok answerResourceRecords
  | name :: names, answerResourceRecords =>
    if stringsContains queryResourceRecord.DomainName name.Name then
      match slice12to16 name.Address with
      | Outcome.ok data =>
        dbLookupLoop queryResourceRecord names (answerResourceRecords ++ [answerRecord name data])
      | Outcome.panic => Outcome.panic
      | Outcome.outOfFuel => Outcome.outOfFuel
    else dbLookupLoop queryResourceRecord names answerResourceRecords

/-- The function `dbLookup`. The outcome of its call of `GetNames` is the
argument `store`: `none` for an error, `some names` for the bindings. The
result is the triple (answers, authorities, additionals). -/
def dbLookup (store : Option (List NameBinding)) (queryResourceRecord : DNSResourceRecord) :
    Outcome (List DNSResourceRecord × List DNSResourceRecord × List DNSResourceRecord) :=
  match store with
  | none => Outcome.ok ([], [], [])
  | some names =>
    if queryResourceRecord.Type_ ≠ TypeA ∨ queryResourceRecord.Class ≠ ClassINET then
      Outcome.ok ([], [], [])
    else
      match dbLookupLoop queryResourceRecord names [] with
      | Outcome.ok answerResourceRecords => Outcome.ok (answerResourceRecords, [], [])
      | Outcome.panic => Outcome.panic
      | Outcome.outOfFuel => Outcome.outOfFuel

/-! ## `HandleDNSClient` -/

/-- The question-decoding loop of `HandleDNSClient`, for the `n` entries of
`queryResourceRecords` still to fill: each takes a name from `readDomainName`
(whose error is only logged) and two `Uint16` reads of `Next(2)`. -/
def readQuestions : Nat → List Byte → Outcome (List DNSResourceRecord × List Byte)
  | 0, requestBuffer => Outcome.ok ([], requestBuffer)
  | n + 1, requestBuffer =>
    match readDomainName requestBuffer with
    | Outcome.ok ((domainName, _), buf1) =>
      match Uint16 (Next 2 buf1).1 with
      | Outcome.ok type_ =>
        match Uint16 (Next 2 (Next 2 buf1).2).1 with
        | Outcome.ok class_ =>
          match readQuestions n (Next 2 (Next 2 buf1).2).2 with
          | Outcome.ok (records, buf) =>
            Outcome.ok ({ DomainName := domainName, Type_ := type_, Class := class_,
                          TimeToLive := 0, ResourceDataLength := 0, ResourceData := [] }
                          :: records, buf)
          | Outcome.panic => Outcome.panic
          | Outcome.outOfFuel => Outcome.outOfFuel
        | Outcome.panic => Outcome.panic
        | Outcome.outOfFuel => Outcome.outOfFuel
      | Outcome.panic => Outcome.panic
      | Outcome.outOfFuel => Outcome.outOfFuel
    | Outcome.panic => Outcome.panic
    | Outcome.outOfFuel => Outcome.outOfFuel

/-- The lookup loop of `HandleDNSClient`: `dbLookup` for every question in
order, each result appended to the three accumulated lists. Every call of
`GetNames` made while one datagram is handled has the same outcome `store`. -/
def lookupLoop (store : Option (List NameBinding)) :
    List DNSResourceRecord →
    List DNSResourceRecord × List DNSResourceRecord × List DNSResourceRecord →
    Outcome (List DNSResourceRecord × List DNSResourceRecord × List DNSResourceRecord)
  | [], acc => Outcome.ok acc
  | queryResourceRecord :: rest, (answers, authorities, additionals) =>
    match dbLookup store queryResourceRecord with
    | Outcome.ok (newAnswerRR, newAuthorityRR, newAdditionalRR) =>
      lookupLoop store rest
        (answers ++ newAnswerRR, authorities ++ newAuthorityRR, additionals ++ newAdditionalRR)
    | Outcome.panic => Outcome.panic
    | Outcome.outOfFuel => Outcome.outOfFuel

/-- The values `HandleDNSClient` holds when it starts to write the response:
the response header and the four lists its write loops range over. -/
structure ResponseParts where
  responseHeader : DNSHeader
  queryResourceRecords : List DNSResourceRecord
  answerResourceRecords : List DNSResourceRecord
  authorityResourceRecords : List DNSResourceRecord
  additionalResourceRecords : List DNSResourceRecord
  deriving DecidableEq

/-- The read and lookup parts of `HandleDNSClient` up to the construction of
`responseHeader`. -/
def assembleResponse (requestBytes : List Byte) (store : Option (List NameBinding)) :
    Outcome ResponseParts :=
  let (queryHeader, _, requestBuffer) := binaryReadHeader requestBytes
  match readQuestions queryHeader.NumQuestions requestBuffer with
  | Outcome.ok (queryResourceRecords, _) =>
    match lookupLoop store queryResourceRecords ([], [], []) with
    | Outcome.ok (answerResourceRecords, authorityResourceRecords, additionalResourceRecords) =>
      Outcome.ok
        { responseHeader :=
            { TransactionID := queryHeader.TransactionID,
              Flags := FlagResponse,
              NumQuestions := queryHeader.NumQuestions,
              NumAnswers := answerResourceRecords.length % 65536,
              NumAuthorities := authorityResourceRecords.length % 65536,
              NumAdditionals := additionalResourceRecords.length % 65536 },
          queryResourceRecords := queryResourceRecords,
          answerResourceRecords := answerResourceRecords,
          authorityResourceRecords := authorityResourceRecords,
          additionalResourceRecords := additionalResourceRecords }
    | Outcome.panic => Outcome.panic
    | Outcome.outOfFuel => Outcome.outOfFuel
  | Outcome.panic => Outcome.panic
  | Outcome.outOfFuel => Outcome.outOfFuel

/-- The body of the loop that writes the question section: the name, the type
and the class of one question. -/
def writeQuestion (responseBuffer : List Byte) (queryResourceRecord : DNSResourceRecord) :
    List Byte :=
  writeUint16
    (writeUint16 (writeDomainName responseBuffer queryResourceRecord.DomainName).1
      queryResourceRecord.Type_)
    queryResourceRecord.Class

/-- The body shared by the three loops that write the answer, authority and
additional sections: the name, the type, the class, the time to live, the
field `ResourceDataLength` and the resource data of one record. -/
def writeResourceRecord (responseBuffer : List Byte) (record : DNSResourceRecord) :
    List Byte :=
  writeBytes
    (writeUint16
      (writeUint32
        (writeUint16
          (writeUint16 (writeDomainName responseBuffer record.DomainName).1 record.Type_)
          record.Class)
        record.TimeToLive)
      record.ResourceDataLength)
    record.ResourceData

/-- The write part of `HandleDNSClient`: the header, then the four sections,
each by a loop over its list. The result is `responseBuffer.Bytes()`. -/
def writeResponse (parts : ResponseParts) : List Byte :=
  let responseBuffer := writeHeader [] parts.responseHeader
  let responseBuffer := parts.queryResourceRecords.foldl writeQuestion responseBuffer
  let responseBuffer := parts.answerResourceRecords.foldl writeResourceRecord responseBuffer
  let responseBuffer := parts.authorityResourceRecords.foldl writeResourceRecord responseBuffer
  parts.additionalResourceRecords.foldl writeResourceRecord responseBuffer

/-- The function `HandleDNSClient`: the bytes it hands to `WriteToUDP` for the
request and the outcome of `GetNames`, or the panic that ends it. -/
def HandleDNSClient (requestBytes : List Byte) (store : Option (List NameBinding)) :
    Outcome (List Byte) :=
  match assembleResponse requestBytes store with
  | Outcome.ok parts => Outcome.ok (writeResponse parts)
  | Outcome.panic => Outcome.panic
  | Outcome.outOfFuel => Outcome.outOfFuel

/-! ## Specification-side definitions -/

/-- The wire form of a sequence of labels, without the terminator: each label
preceded by its length as one byte. -/
def wireLabels (labels : List (List Byte)) : List Byte :=
  labels.flatMap (fun label => toByte label.length :: label)

/-- The textual form of a sequence of labels: the labels joined by dots. -/
def joinDots : List (List Byte) → List Byte
  | [] => []
  | [label] => label
  | label :: rest => label ++ dot :: joinDots rest

/-- A buffer in which a zero length byte is met at a label boundary: the
buffer starts with the terminator, or with a non-zero length byte, that many
bytes of label, and a buffer in which the terminator is met. -/
inductive TerminatorReached : List Byte → Prop where
  | terminator (rest : List Byte) : TerminatorReached (0 :: rest)
  | label (b : Byte) (labelBytes rest : List Byte) :
      b ≠ 0 → labelBytes.length = b.val → TerminatorReached rest →
      TerminatorReached (b :: (labelBytes ++ rest))

/-- The name the loop of `readDomainName` builds from the name so far and the
labels it reads next. -/
def joinOnto : List Byte → List (List Byte) → List Byte
  | domainName, [] => domainName
  | domainName, label :: rest =>
    joinOnto (if domainName.length = 0 then label else domainName ++ [dot] ++ label) rest

/-- The two properties of a record that make its stored length field agree
with its data: the field is 4 and the data has 4 bytes. -/
def LengthFour (r : DNSResourceRecord) : Prop :=
  r.ResourceDataLength = 4 ∧ r.ResourceData.length = 4

/-! # Theorems -/

/-! ## Lemmas on the library functions -/

theorem stringsSplit_ne_nil (s : List Byte) : stringsSplit s ≠ [] := by
  induction s with
  | nil => simp [stringsSplit]
  | cons c cs ih =>
    unfold stringsSplit
    split
    · simp
    · split <;> simp

theorem joinDots_cons_cons (c : Byte) (l : List Byte) (ls : List (List Byte)) :
    joinDots ((c :: l) :: ls) = c :: joinDots (l :: ls) := by
  cases ls <;> simp [joinDots]

theorem joinDots_stringsSplit (s : List Byte) : joinDots (stringsSplit s) = s := by
  induction s with
  | nil => simp [stringsSplit, joinDots]
  | cons c cs ih =>
    unfold stringsSplit
    split
    · rename_i h
      cases hs : stringsSplit cs with
      | nil => exact absurd hs (stringsSplit_ne_nil cs)
      | cons l ls =>
        rw [hs] at ih
        simp [joinDots, ih, h]
    · split
      · rename_i hs
        exact absurd hs (stringsSplit_ne_nil cs)
      · rename_i l ls hs
        rw [hs] at ih
        rw [joinDots_cons_cons, ih]

theorem stringsContains_iff (s substr : List Byte) :
    stringsContains s substr = true ↔ substr <:+: s := by
  induction s with
  | nil => simp [stringsContains]
  | cons c s ih =>
    simp [stringsContains, List.infix_cons_iff, ih]

theorem toByte_val_of_lt {n : Nat} (h : n < 256) : (toByte n).val = n := by
  simp [toByte, Nat.mod_eq_of_lt h]

theorem toByte_be16_hi (hi lo : Byte) : toByte (be16 hi lo / 256) = hi := by
  apply Fin.ext
  have h1 := hi.isLt
  have h2 := lo.isLt
  simp only [toByte, be16]
  omega

theorem toByte_be16_lo (hi lo : Byte) : toByte (be16 hi lo) = lo := by
  apply Fin.ext
  have h1 := hi.isLt
  have h2 := lo.isLt
  simp only [toByte, be16]
  omega

/-! ## Lemmas on `writeDomainName` -/

theorem foldl_writeLabel (labels : List (List Byte)) (buf : List Byte) :
    labels.foldl writeLabel buf = buf ++ wireLabels labels := by
  induction labels generalizing buf with
  | nil => simp [wireLabels]
  | cons l ls ih =>
    simp only [List.foldl_cons, ih]
    simp [wireLabels, writeLabel, WriteByte]

theorem writeDomainName_eq (buf name : List Byte) :
    writeDomainName buf name = (buf ++ wireLabels (stringsSplit name) ++ [0], none) := by
  simp [writeDomainName, foldl_writeLabel, WriteByte]

/-! ## Lemmas on `readDomainName` -/

theorem readDomainNameLoop_exit (fuel : Nat) (domainName : List Byte) (b : Byte)
    (err : Option GoError) (buf : List Byte) (h : b = 0 ∨ err ≠ none) :
    readDomainNameLoop fuel domainName b err buf = Outcome.ok ((domainName, err), buf) := by
  unfold readDomainNameLoop
  have : ¬ (b ≠ 0 ∧ err = none) := by
    rcases h with h | h
    · simp [h]
    · simp [h]
  rw [if_neg this]

theorem readDomainNameLoop_step (fuel : Nat) (domainName : List Byte) (b : Byte)
    (buf : List Byte) (h : b ≠ 0) :
    readDomainNameLoop (fuel + 1) domainName b none buf =
      readDomainNameLoop fuel
        (if domainName.length = 0 then buf.take b.val else domainName ++ [dot] ++ buf.take b.val)
        (ReadByte (buf.drop b.val)).1 (ReadByte (buf.drop b.val)).2.1
        (ReadByte (buf.drop b.val)).2.2 := by
  rw [readDomainNameLoop]
  have : b ≠ 0 ∧ (none : Option GoError) = none := ⟨h, rfl⟩
  rw [if_pos this]
  simp [Next]

theorem TerminatorReached_ne_nil {buf : List Byte} (h : TerminatorReached buf) : buf ≠ [] := by
  cases h <;> simp

theorem TerminatorReached_cons_iff (b : Byte) (buf : List Byte) (hb : b ≠ 0) :
    TerminatorReached (b :: buf) ↔
      b.val < buf.length ∧ TerminatorReached (buf.drop b.val) := by
  constructor
  · intro h
    cases h with
    | terminator rest => exact absurd rfl hb
    | label _ labelBytes rest _ hlen hrest =>
      have hne := TerminatorReached_ne_nil hrest
      have hpos : 0 < rest.length := List.length_pos.mpr hne
      refine ⟨by simp [List.length_append]; omega, ?_⟩
      rw [List.drop_left' hlen]
      exact hrest
  · rintro ⟨hlt, hrest⟩
    have hsplit : buf = buf.take b.val ++ buf.drop b.val := (List.take_append_drop _ _).symm
    rw [hsplit]
    refine TerminatorReached.label b _ _ hb ?_ hrest
    simp [List.length_take]
    omega

theorem readDomainNameLoop_spec (fuel : Nat) :
    ∀ (domainName : List Byte) (b : Byte) (buf : List Byte), buf.length < fuel →
      ∃ name err rest,
        readDomainNameLoop fuel domainName b none buf = Outcome.ok ((name, err), rest) ∧
        (err = none ↔ TerminatorReached (b :: buf)) := by
  induction fuel with
  | zero => intro _ _ buf h; exact absurd h (Nat.not_lt_zero _)
  | succ f ih =>
    intro domainName b buf hlen
    by_cases hb : b = 0
    · refine ⟨domainName, none, buf, readDomainNameLoop_exit _ _ _ _ _ (Or.inl hb), ?_⟩
      subst hb
      simp [TerminatorReached.terminator]
    · rw [readDomainNameLoop_step f domainName b buf hb, TerminatorReached_cons_iff b buf hb]
      cases hd : buf.drop b.val with
      | nil =>
        simp only [ReadByte]
        have hrun := readDomainNameLoop_exit f
          (if domainName.length = 0 then buf.take b.val else domainName ++ [dot] ++ buf.take b.val)
          0 (some GoError.EOF) [] (Or.inr (by simp))
        refine ⟨_, some GoError.EOF, [], hrun, ?_⟩
        constructor
        · intro h; cases h
        · rintro ⟨_, h⟩
          exact absurd rfl (TerminatorReached_ne_nil h)
      | cons b1 buf2 =>
        simp only [ReadByte]
        have hlen2 : buf2.length < f := by
          have := congrArg List.length hd
          simp [List.length_drop] at this
          omega
        obtain ⟨name, err, rest, hrun, hiff⟩ := ih
          (if domainName.length = 0 then buf.take b.val else domainName ++ [dot] ++ buf.take b.val)
          b1 buf2 hlen2
        refine ⟨name, err, rest, hrun, ?_⟩
        rw [hiff]
        constructor
        · intro h
          refine ⟨?_, h⟩
          have := congrArg List.length hd
          simp [List.length_drop] at this
          omega
        · exact fun h => h.2

theorem readDomainName_spec (buf : List Byte) :
    ∃ name err rest,
      readDomainName buf = Outcome.ok ((name, err), rest) ∧
      (err = none ↔ TerminatorReached buf) := by
  cases buf with
  | nil =>
    refine ⟨[], some GoError.EOF, [], ?_, ?_⟩
    · simp only [readDomainName, ReadByte]
      exact readDomainNameLoop_exit _ _ _ _ _ (Or.inr (by simp))
    · constructor
      · intro h; cases h
      · intro h; exact absurd rfl (TerminatorReached_ne_nil h)
  | cons b rest =>
    simp only [readDomainName, ReadByte, List.length_cons]
    exact readDomainNameLoop_spec (rest.length + 1) [] b rest (Nat.lt_succ_self _)

theorem wireLabels_cons (l : List Byte) (ls : List (List Byte)) :
    wireLabels (l :: ls) = toByte l.length :: (l ++ wireLabels ls) := by
  simp [wireLabels]

theorem readDomainNameLoop_wire (labels : List (List Byte)) :
    ∀ (fuel : Nat) (domainName : List Byte) (b : Byte) (buf rest : List Byte),
      (∀ l ∈ labels, 1 ≤ l.length ∧ l.length ≤ 255) →
      labels.length ≤ fuel →
      b :: buf = wireLabels labels ++ 0 :: rest →
      readDomainNameLoop fuel domainName b none buf =
        Outcome.ok ((joinOnto domainName labels, none), rest) := by
  induction labels with
  | nil =>
    intro fuel domainName b buf rest _ _ hwire
    simp only [wireLabels, List.flatMap_nil, List.nil_append, List.cons.injEq] at hwire
    rw [readDomainNameLoop_exit _ _ _ _ _ (Or.inl hwire.1), hwire.2]
    rfl
  | cons l ls ih =>
    intro fuel domainName b buf rest hl hfuel hwire
    have hl1 := hl l (List.mem_cons_self _ _)
    simp only [wireLabels_cons, List.cons_append, List.cons.injEq,
      List.append_assoc] at hwire
    obtain ⟨hb, hbuf⟩ := hwire
    have hbv : b.val = l.length := by
      rw [hb]; exact toByte_val_of_lt (by omega)
    have hb0 : b ≠ 0 := by
      intro h0
      rw [h0] at hbv
      simp at hbv
      omega
    cases fuel with
    | zero => simp at hfuel
    | succ f =>
      rw [readDomainNameLoop_step f domainName b buf hb0, hbuf, hbv, List.take_left, List.drop_left]
      have hnext : ∃ b1 buf2, b1 :: buf2 = wireLabels ls ++ 0 :: rest := by
        cases hw : wireLabels ls ++ 0 :: rest with
        | nil => simp at hw
        | cons x xs => exact ⟨x, xs, rfl⟩
      obtain ⟨b1, buf2, hnext⟩ := hnext
      rw [← hnext]
      simp only [ReadByte]
      rw [ih f _ b1 buf2 rest (fun x hx => hl x (List.mem_cons_of_mem _ hx))
        (by simp at hfuel; omega) hnext]
      rfl

theorem joinOnto_of_ne_nil (labels : List (List Byte)) :
    ∀ (domainName : List Byte), domainName ≠ [] →
      joinOnto domainName labels = domainName ++ labels.flatMap (fun l => dot :: l) := by
  induction labels with
  | nil => intro d _; simp [joinOnto]
  | cons l ls ih =>
    intro d hd
    have hlen : d.length ≠ 0 := by
      intro h; exact hd (List.length_eq_zero.mp h)
    simp only [joinOnto, if_neg hlen]
    rw [ih _ (by simp)]
    simp

theorem joinDots_cons (l : List Byte) (ls : List (List Byte)) :
    joinDots (l :: ls) = l ++ ls.flatMap (fun x => dot :: x) := by
  induction ls generalizing l with
  | nil => simp [joinDots]
  | cons x xs ih => simp [joinDots, ih]

theorem joinOnto_nil_eq_joinDots (labels : List (List Byte))
    (h : ∀ l ∈ labels, 1 ≤ l.length) : joinOnto [] labels = joinDots labels := by
  cases labels with
  | nil => rfl
  | cons l ls =>
    have hl := h l (List.mem_cons_self _ _)
    have hne : l ≠ [] := by
      intro h0; rw [h0] at hl; simp at hl
    simp only [joinOnto, List.length_nil, if_true]
    rw [joinOnto_of_ne_nil ls l hne, joinDots_cons]

theorem length_le_wireLabels (labels : List (List Byte)) :
    labels.length ≤ (wireLabels labels).length := by
  induction labels with
  | nil => simp
  | cons l ls ih =>
    rw [wireLabels_cons]
    simp only [List.length_cons, List.length_append]
    omega

theorem readDomainName_wire (labels : List (List Byte)) (rest : List Byte)
    (h : ∀ l ∈ labels, 1 ≤ l.length ∧ l.length ≤ 255) :
    readDomainName (wireLabels labels ++ 0 :: rest) =
      Outcome.ok ((joinOnto [] labels, none), rest) := by
  cases hw : wireLabels labels ++ 0 :: rest with
  | nil => simp at hw
  | cons b buf =>
    simp only [readDomainName, ReadByte]
    refine readDomainNameLoop_wire labels _ [] b buf rest h ?_ hw.symm
    have h1 := length_le_wireLabels labels
    have h2 := congrArg List.length hw
    simp only [List.length_append, List.length_cons] at h2
    simp only [List.length_cons]
    omega

theorem not_TerminatorReached_overrun (labels : List (List Byte)) (b : Byte) (tail : List Byte)
    (h : ∀ l ∈ labels, 1 ≤ l.length ∧ l.length ≤ 255) (hb : tail.length < b.val) :
    ¬ TerminatorReached (wireLabels labels ++ b :: tail) := by
  induction labels with
  | nil =>
    have hb0 : b ≠ 0 := by
      intro h0; rw [h0] at hb; simp at hb
    simp only [wireLabels, List.flatMap_nil, List.nil_append]
    rw [TerminatorReached_cons_iff b tail hb0]
    omega
  | cons l ls ih =>
    have hl := h l (List.mem_cons_self _ _)
    have hv : (toByte l.length).val = l.length := toByte_val_of_lt (by omega)
    have h0 : toByte l.length ≠ 0 := by
      intro h0; rw [h0] at hv; simp at hv; omega
    rw [wireLabels_cons, List.cons_append, List.append_assoc,
      TerminatorReached_cons_iff _ _ h0, hv, List.drop_left]
    exact fun hc => ih (fun x hx => h x (List.mem_cons_of_mem _ hx)) hc.2

/-! ## The claims on the label-sequence codec -/

/-- C1 (as amended): for every domain name that is empty or whose
dot-separated labels are each between 1 and 255 bytes long, `readDomainName`
run on exactly the bytes `writeDomainName` produces for the name returns that
name with no error; it leaves nothing unread, except for the empty name, for
which one zero byte is left. -/
theorem readDomainName_writeDomainName (name : List Byte)
    (h : name = [] ∨ ∀ l ∈ stringsSplit name, 1 ≤ l.length ∧ l.length ≤ 255) :
    readDomainName (writeDomainName [] name).1 =
      Outcome.ok ((name, none), if name = [] then [0] else []) := by
  rcases h with h | h
  · subst h
    decide
  · have hne : name ≠ [] := by
      intro h0
      subst h0
      have := h [] (by simp [stringsSplit])
      simp at this
    rw [writeDomainName_eq, if_neg hne]
    simp only [List.nil_append]
    rw [readDomainName_wire _ [] h,
      joinOnto_nil_eq_joinDots _ (fun l hl => (h l hl).1), joinDots_stringsSplit]

/-- Witness of C1 at the name `www.example.com`. -/
theorem readDomainName_writeDomainName_witness :
    readDomainName (writeDomainName []
        [119, 119, 119, 46, 101, 120, 97, 109, 112, 108, 101, 46, 99, 111, 109]).1 =
      Outcome.ok (([119, 119, 119, 46, 101, 120, 97, 109, 112, 108, 101, 46, 99, 111, 109], none),
        if ([119, 119, 119, 46, 101, 120, 97, 109, 112, 108, 101, 46, 99, 111, 109] : List Byte)
          = [] then [0] else []) :=
  readDomainName_writeDomainName _ (Or.inr (by decide))

/-- C1 as stated fails at the name `a.` (bytes 97, 46): its labels `a` and the
empty label are each at most 255 bytes long, it is written as 1, 97, 0, 0, and
that is read back as the name `a`. -/
theorem readDomainName_writeDomainName_trailing_dot :
    (∀ l ∈ stringsSplit [97, 46], l.length ≤ 255) ∧
    readDomainName (writeDomainName [] [97, 46]).1 = Outcome.ok (([97], none), [0]) ∧
    ¬ ∃ rest, readDomainName (writeDomainName [] [97, 46]).1 =
        Outcome.ok (([97, 46], none), rest) := by
  refine ⟨by decide, by decide, ?_⟩
  rintro ⟨rest, h⟩
  have h2 : readDomainName (writeDomainName [] [97, 46]).1 = Outcome.ok (([97], none), [0]) := by
    decide
  rw [h2] at h
  simp at h

/-- C6: the code appends two zero bytes for the empty name, not one: the
split of the empty string is one empty label, written as a zero length byte,
and the terminator follows it. -/
theorem writeDomainName_empty (responseBuffer : List Byte) :
    writeDomainName responseBuffer [] = (responseBuffer ++ [0, 0], none) := by
  simp [writeDomainName, stringsSplit, writeLabel, WriteByte, toByte]

/-- C8 (as amended): `writeDomainName` returns no error for any name; it
writes every label as the byte `length mod 256` followed by all bytes of the
label, and then the zero terminator. -/
theorem writeDomainName_no_error (responseBuffer name : List Byte) :
    (writeDomainName responseBuffer name).2 = none ∧
    (writeDomainName responseBuffer name).1 =
      responseBuffer ++
        (stringsSplit name).flatMap (fun label => toByte (label.length % 256) :: label) ++
        [0] := by
  rw [writeDomainName_eq]
  simp [wireLabels, toByte]

/-- C8 as stated fails at the name of 256 bytes `a`: its one label is longer
than 255 bytes and `writeDomainName` returns no error. -/
theorem writeDomainName_long_label :
    (∃ l ∈ stringsSplit (List.replicate 256 97), 255 < l.length) ∧
    (writeDomainName [] (List.replicate 256 97)).2 = none := by
  refine ⟨⟨List.replicate 256 97, ?_, ?_⟩, rfl⟩
  swap
  · rw [List.length_replicate]
    decide
  have h : ∀ n : Nat, stringsSplit (List.replicate n 97) = [List.replicate n 97] := by
    intro n
    induction n with
    | zero => rfl
    | succ k ih =>
      rw [List.replicate_succ, stringsSplit, ih]
      rw [if_neg (by decide)]
  rw [h]
  exact List.mem_cons_self _ _

/-- C9: `readDomainName` always returns; its error is nil exactly when a zero
length byte is met at a label boundary, so it returns an error for every buffer
exhausted before that; in particular it returns an error when, after any
number of complete labels, a length byte claims more bytes than remain; and a
buffer holding only a zero byte decodes to the empty name without error. -/
theorem readDomainName_error_iff :
    (∀ buf : List Byte, ∃ name err rest,
      readDomainName buf = Outcome.ok ((name, err), rest) ∧
      (err = none ↔ TerminatorReached buf)) ∧
    (∀ (labels : List (List Byte)) (b : Byte) (tail : List Byte),
      (∀ l ∈ labels, 1 ≤ l.length ∧ l.length ≤ 255) → tail.length < b.val →
      ∃ name e rest,
        readDomainName (wireLabels labels ++ b :: tail) = Outcome.ok ((name, some e), rest)) ∧
    readDomainName [0] = Outcome.ok (([], none), []) := by
  refine ⟨readDomainName_spec, ?_, by decide⟩
  intro labels b tail hl hb
  obtain ⟨name, err, rest, hrun, hiff⟩ := readDomainName_spec (wireLabels labels ++ b :: tail)
  cases err with
  | none => exact absurd (hiff.mp rfl) (not_TerminatorReached_overrun labels b tail hl hb)
  | some e => exact ⟨name, e, rest, hrun⟩

/-- Witness of C9: after the complete label `a`, the length byte 5 is followed
by two bytes only, and `readDomainName` returns an error. -/
theorem readDomainName_error_iff_witness :
    ∃ name e rest,
      readDomainName (wireLabels [[97]] ++ 5 :: [1, 2]) = Outcome.ok ((name, some e), rest) :=
  readDomainName_error_iff.2.1 [[97]] 5 [1, 2] (by decide) (by decide)

/-! ## Lemmas on `dbLookup` -/

theorem slice12to16_of_length {s : List Byte} (h : s.length = 16) :
    slice12to16 s = Outcome.ok ((s.drop 12).take 4) := by
  simp [slice12to16, h]

theorem slice12to16_length {s data : List Byte} (h : slice12to16 s = Outcome.ok data) :
    data.length = 4 := by
  unfold slice12to16 at h
  split at h
  · rename_i hlen
    simp only [Outcome.ok.injEq] at h
    rw [← h]
    simp only [List.length_take, List.length_drop]
    omega
  · cases h

theorem dbLookupLoop_eq (q : DNSResourceRecord) (names : List NameBinding) :
    ∀ answers : List DNSResourceRecord, (∀ n ∈ names, n.Address.length = 16) →
      dbLookupLoop q names answers =
        Outcome.ok (answers ++
          (names.filter (fun n => decide (n.Name <:+: q.DomainName))).map
            (fun n => answerRecord n ((n.Address.drop 12).take 4))) := by
  induction names with
  | nil => intro answers _; simp [dbLookupLoop]
  | cons n ns ih =>
    intro answers h
    have hn := h n (List.mem_cons_self _ _)
    have hns : ∀ x ∈ ns, x.Address.length = 16 := fun x hx => h x (List.mem_cons_of_mem _ hx)
    unfold dbLookupLoop
    by_cases hc : stringsContains q.DomainName n.Name = true
    · have hi : n.Name <:+: q.DomainName := (stringsContains_iff _ _).mp hc
      rw [if_pos hc, slice12to16_of_length hn]
      simp only
      rw [ih _ hns, List.filter_cons_of_pos (by simpa using hi)]
      simp
    · have hi : ¬ n.Name <:+: q.DomainName := fun hx => hc ((stringsContains_iff _ _).mpr hx)
      rw [if_neg hc, ih _ hns, List.filter_cons_of_neg (by simpa using hi)]

theorem dbLookupLoop_lengthFour (q : DNSResourceRecord) (names : List NameBinding) :
    ∀ answers result : List DNSResourceRecord,
      dbLookupLoop q names answers = Outcome.ok result →
      (∀ r ∈ answers, LengthFour r) → ∀ r ∈ result, LengthFour r := by
  induction names with
  | nil =>
    intro answers result h hacc
    simp only [dbLookupLoop, Outcome.ok.injEq] at h
    rw [← h]; exact hacc
  | cons n ns ih =>
    intro answers result h hacc
    unfold dbLookupLoop at h
    split at h
    · split at h
      · rename_i data hs
        refine ih _ _ h ?_
        intro r hr
        rcases List.mem_append.mp hr with hr | hr
        · exact hacc r hr
        · rw [List.mem_singleton] at hr
          rw [hr]
          exact ⟨rfl, slice12to16_length hs⟩
      · cases h
      · cases h
    · exact ih _ _ h hacc

theorem dbLookupLoop_ne_outOfFuel (q : DNSResourceRecord) (names : List NameBinding) :
    ∀ answers, dbLookupLoop q names answers ≠ Outcome.outOfFuel := by
  induction names with
  | nil => intro answers; simp [dbLookupLoop]
  | cons n ns ih =>
    intro answers
    unfold dbLookupLoop
    split
    · split
      · exact ih _
      · simp
      · rename_i heq
        unfold slice12to16 at heq
        split at heq <;> cases heq
    · exact ih _

theorem dbLookup_shape (store : Option (List NameBinding)) (q : DNSResourceRecord)
    (answers authorities additionals : List DNSResourceRecord)
    (h : dbLookup store q = Outcome.ok (answers, authorities, additionals)) :
    authorities = [] ∧ additionals = [] ∧ ∀ r ∈ answers, LengthFour r := by
  unfold dbLookup at h
  split at h
  · simp only [Outcome.ok.injEq, Prod.mk.injEq] at h
    obtain ⟨h1, h2, h3⟩ := h
    subst h1 h2 h3
    simp
  · split at h
    · simp only [Outcome.ok.injEq, Prod.mk.injEq] at h
      obtain ⟨h1, h2, h3⟩ := h
      subst h1 h2 h3
      simp
    · split at h
      · rename_i res hres
        simp only [Outcome.ok.injEq, Prod.mk.injEq] at h
        obtain ⟨h1, h2, h3⟩ := h
        subst h1 h2 h3
        exact ⟨rfl, rfl, dbLookupLoop_lengthFour q _ [] _ hres (by simp)⟩
      · cases h
      · cases h

theorem dbLookup_ne_outOfFuel (store : Option (List NameBinding)) (q : DNSResourceRecord) :
    dbLookup store q ≠ Outcome.outOfFuel := by
  unfold dbLookup
  split
  · simp
  · split
    · simp
    · split
      · simp
      · simp
      · rename_i h
        exact absurd h (dbLookupLoop_ne_outOfFuel _ _ _)

theorem dbLookup_eq (q : DNSResourceRecord) (names : List NameBinding)
    (hType : q.Type_ = 1) (hClass : q.Class = 1)
    (hAddr : ∀ n ∈ names, n.Address.length = 16) :
    dbLookup (some names) q =
      Outcome.ok
        ((names.filter (fun n => decide (n.Name <:+: q.DomainName))).map
          (fun n =>
            { DomainName := n.Name, Type_ := 1, Class := 1, TimeToLive := 31337,
              ResourceDataLength := 4, ResourceData := (n.Address.drop 12).take 4 }),
         [], []) := by
  unfold dbLookup
  simp only [hType, hClass, TypeA, ClassINET, ne_eq, not_true_eq_false, or_self, if_false]
  rw [dbLookupLoop_eq q names [] hAddr]
  simp [answerRecord, TypeA, ClassINET]

/-! ## The claim on the lookup -/

/-- C4: for a question of type 1 and class 1 and a list of bindings whose
addresses have 16 bytes, `dbLookup` returns as answers one record for every
binding whose name is a substring of the question's name, in the order of the
store, with the binding's name, type 1, class 1, ttl 31337, length 4 and
resource data the bytes 12..15 of the address, and it returns no authority and
no additional record; the binding `example` and the question `www.example.com`
give exactly one answer. -/
theorem dbLookup_containment (q : DNSResourceRecord) (names : List NameBinding)
    (hType : q.Type_ = 1) (hClass : q.Class = 1)
    (hAddr : ∀ n ∈ names, n.Address.length = 16) :
    dbLookup (some names) q =
      Outcome.ok
        ((names.filter (fun n => decide (n.Name <:+: q.DomainName))).map
          (fun n =>
            { DomainName := n.Name, Type_ := 1, Class := 1, TimeToLive := 31337,
              ResourceDataLength := 4, ResourceData := (n.Address.drop 12).take 4 }),
         [], []) ∧
    (q.DomainName = [119, 119, 119, 46, 101, 120, 97, 109, 112, 108, 101, 46, 99, 111, 109] →
      ∀ addr : List Byte, addr.length = 16 →
        dbLookup (some [⟨[101, 120, 97, 109, 112, 108, 101], addr⟩]) q =
          Outcome.ok
            ([{ DomainName := [101, 120, 97, 109, 112, 108, 101], Type_ := 1, Class := 1,
                TimeToLive := 31337, ResourceDataLength := 4,
                ResourceData := (addr.drop 12).take 4 }], [], [])) := by
  have key := fun ns hns => dbLookup_eq q ns hType hClass hns
  refine ⟨key names hAddr, ?_⟩
  intro hname addr haddr
  rw [key [⟨[101, 120, 97, 109, 112, 108, 101], addr⟩] (by simpa using haddr), hname]
  have hin : ([101, 120, 97, 109, 112, 108, 101] : List Byte) <:+:
      [119, 119, 119, 46, 101, 120, 97, 109, 112, 108, 101, 46, 99, 111, 109] := by decide
  simp [hin]

/-- Witness of C4: the question `www.example.com` of type 1 and class 1
against the bindings `example`, `org` and `com`. -/
theorem dbLookup_containment_witness :
    dbLookup (some
        [⟨[101, 120, 97, 109, 112, 108, 101], [0, 0, 0, 0, 0, 0, 0, 0, 0, 0, 255, 255, 10, 1, 2, 3]⟩,
         ⟨[111, 114, 103], [0, 0, 0, 0, 0, 0, 0, 0, 0, 0, 255, 255, 10, 9, 9, 9]⟩,
         ⟨[99, 111, 109], [0, 0, 0, 0, 0, 0, 0, 0, 0, 0, 255, 255, 10, 4, 5, 6]⟩])
        ⟨[119, 119, 119, 46, 101, 120, 97, 109, 112, 108, 101, 46, 99, 111, 109], 1, 1, 0, 0, []⟩ =
      Outcome.ok
        ([⟨[101, 120, 97, 109, 112, 108, 101], 1, 1, 31337, 4, [10, 1, 2, 3]⟩,
          ⟨[99, 111, 109], 1, 1, 31337, 4, [10, 4, 5, 6]⟩], [], []) :=
  (dbLookup_containment
    ⟨[119, 119, 119, 46, 101, 120, 97, 109, 112, 108, 101, 46, 99, 111, 109], 1, 1, 0, 0, []⟩
    [⟨[101, 120, 97, 109, 112, 108, 101], [0, 0, 0, 0, 0, 0, 0, 0, 0, 0, 255, 255, 10, 1, 2, 3]⟩,
     ⟨[111, 114, 103], [0, 0, 0, 0, 0, 0, 0, 0, 0, 0, 255, 255, 10, 9, 9, 9]⟩,
     ⟨[99, 111, 109], [0, 0, 0, 0, 0, 0, 0, 0, 0, 0, 255, 255, 10, 4, 5, 6]⟩]
    rfl rfl (by decide)).1.trans (by decide)

/-! ## Lemmas on the responder -/

theorem readDomainName_ne_outOfFuel (buf : List Byte) :
    readDomainName buf ≠ Outcome.outOfFuel := by
  obtain ⟨name, err, rest, h, _⟩ := readDomainName_spec buf
  rw [h]
  simp

theorem readDomainName_ne_panic (buf : List Byte) :
    readDomainName buf ≠ Outcome.panic := by
  obtain ⟨name, err, rest, h, _⟩ := readDomainName_spec buf
  rw [h]
  simp

theorem readQuestions_length (n : Nat) :
    ∀ (buf : List Byte) (records : List DNSResourceRecord) (rest : List Byte),
      readQuestions n buf = Outcome.ok (records, rest) → records.length = n := by
  induction n with
  | zero =>
    intro buf records rest h
    simp only [readQuestions, Outcome.ok.injEq, Prod.mk.injEq] at h
    rw [← h.1]; rfl
  | succ k ih =>
    intro buf records rest h
    unfold readQuestions at h
    split at h
    · split at h
      · split at h
        · split at h
          · rename_i recs buf4 hrec
            simp only [Outcome.ok.injEq, Prod.mk.injEq] at h
            rw [← h.1, List.length_cons, ih _ _ _ hrec]
          · cases h
          · cases h
        · cases h
        · cases h
      · cases h
      · cases h
    · cases h
    · cases h

theorem Uint16_ne_outOfFuel (b : List Byte) : Uint16 b ≠ Outcome.outOfFuel := by
  unfold Uint16
  split <;> simp

theorem readQuestions_ne_outOfFuel (n : Nat) :
    ∀ buf : List Byte, readQuestions n buf ≠ Outcome.outOfFuel := by
  induction n with
  | zero => intro buf; simp [readQuestions]
  | succ k ih =>
    intro buf
    unfold readQuestions
    split
    · split
      · split
        · split
          · simp
          · simp
          · rename_i h; exact absurd h (ih _)
        · simp
        · rename_i h; exact absurd h (Uint16_ne_outOfFuel _)
      · simp
      · rename_i h; exact absurd h (Uint16_ne_outOfFuel _)
    · simp
    · rename_i h; exact absurd h (readDomainName_ne_outOfFuel _)

theorem lookupLoop_shape (store : Option (List NameBinding)) (qs : List DNSResourceRecord) :
    ∀ (a b c a1 b1 c1 : List DNSResourceRecord),
      lookupLoop store qs (a, b, c) = Outcome.ok (a1, b1, c1) →
      b1 = b ∧ c1 = c ∧ ((∀ r ∈ a, LengthFour r) → ∀ r ∈ a1, LengthFour r) := by
  induction qs with
  | nil =>
    intro a b c a1 b1 c1 h
    simp only [lookupLoop, Outcome.ok.injEq, Prod.mk.injEq] at h
    obtain ⟨h1, h2, h3⟩ := h
    subst h1 h2 h3
    exact ⟨rfl, rfl, fun h => h⟩
  | cons q rest ih =>
    intro a b c a1 b1 c1 h
    unfold lookupLoop at h
    split at h
    · rename_i na nb nc hdb
      obtain ⟨hb, hc, ha⟩ := dbLookup_shape store q na nb nc hdb
      obtain ⟨h1, h2, h3⟩ := ih _ _ _ _ _ _ h
      subst hb hc
      refine ⟨by simpa using h1, by simpa using h2, ?_⟩
      intro hacc
      refine h3 ?_
      intro r hr
      rcases List.mem_append.mp hr with hr | hr
      · exact hacc r hr
      · exact ha r hr
    · cases h
    · cases h

theorem lookupLoop_ne_outOfFuel (store : Option (List NameBinding))
    (qs : List DNSResourceRecord) :
    ∀ acc, lookupLoop store qs acc ≠ Outcome.outOfFuel := by
  induction qs with
  | nil => intro acc; simp [lookupLoop]
  | cons q rest ih =>
    rintro ⟨a, b, c⟩
    unfold lookupLoop
    split
    · exact ih _
    · simp
    · rename_i h; exact absurd h (dbLookup_ne_outOfFuel _ _)

theorem assembleResponse_ok (req : List Byte) (store : Option (List NameBinding))
    (parts : ResponseParts) (h : assembleResponse req store = Outcome.ok parts) :
    ∃ rest,
      readQuestions (binaryReadHeader req).1.NumQuestions (binaryReadHeader req).2.2 =
        Outcome.ok (parts.queryResourceRecords, rest) ∧
      lookupLoop store parts.queryResourceRecords ([], [], []) =
        Outcome.ok (parts.answerResourceRecords, parts.authorityResourceRecords,
          parts.additionalResourceRecords) ∧
      parts.responseHeader =
        { TransactionID := (binaryReadHeader req).1.TransactionID,
          Flags := FlagResponse,
          NumQuestions := (binaryReadHeader req).1.NumQuestions,
          NumAnswers := parts.answerResourceRecords.length % 65536,
          NumAuthorities := parts.authorityResourceRecords.length % 65536,
          NumAdditionals := parts.additionalResourceRecords.length % 65536 } := by
  unfold assembleResponse at h
  simp only at h
  split at h
  · rename_i qs rest hq
    split at h
    · rename_i a b c hl
      simp only [Outcome.ok.injEq] at h
      subst h
      exact ⟨rest, hq, hl, rfl⟩
    · cases h
    · cases h
  · cases h
  · cases h

theorem lookupLoop_single (store : Option (List NameBinding)) (q : DNSResourceRecord)
    (a b c : List DNSResourceRecord) (h : dbLookup store q = Outcome.ok (a, b, c)) :
    lookupLoop store [q] ([], [], []) = Outcome.ok (a, b, c) := by
  simp only [lookupLoop, h, List.nil_append]

theorem assembleResponse_intro (req : List Byte) (store : Option (List NameBinding))
    (qs a b c : List DNSResourceRecord) (rest : List Byte)
    (hq : readQuestions (binaryReadHeader req).1.NumQuestions (binaryReadHeader req).2.2 =
      Outcome.ok (qs, rest))
    (hl : lookupLoop store qs ([], [], []) = Outcome.ok (a, b, c)) :
    assembleResponse req store =
      Outcome.ok
        { responseHeader :=
            { TransactionID := (binaryReadHeader req).1.TransactionID,
              Flags := FlagResponse,
              NumQuestions := (binaryReadHeader req).1.NumQuestions,
              NumAnswers := a.length % 65536,
              NumAuthorities := b.length % 65536,
              NumAdditionals := c.length % 65536 },
          queryResourceRecords := qs,
          answerResourceRecords := a,
          authorityResourceRecords := b,
          additionalResourceRecords := c } := by
  simp only [assembleResponse, hq, hl]

theorem HandleDNSClient_ok (req : List Byte) (store : Option (List NameBinding))
    (resp : List Byte) (h : HandleDNSClient req store = Outcome.ok resp) :
    ∃ parts, assembleResponse req store = Outcome.ok parts ∧ resp = writeResponse parts := by
  unfold HandleDNSClient at h
  split at h
  · rename_i parts hp
    simp only [Outcome.ok.injEq] at h
    exact ⟨parts, hp, h.symm⟩
  · cases h
  · cases h

/-- The iteration budget of the model is never used up: `HandleDNSClient`
ends with a response or with a panic. -/
theorem HandleDNSClient_ne_outOfFuel (req : List Byte) (store : Option (List NameBinding)) :
    HandleDNSClient req store ≠ Outcome.outOfFuel := by
  unfold HandleDNSClient
  split
  · simp
  · simp
  · rename_i h
    unfold assembleResponse at h
    simp only at h
    split at h
    · split at h
      · cases h
      · cases h
      · rename_i hl
        exact absurd hl (lookupLoop_ne_outOfFuel _ _ _)
    · cases h
    · rename_i hq
      exact absurd hq (readQuestions_ne_outOfFuel _ _)

theorem foldl_write_eq {α : Type} (f : List Byte → α → List Byte)
    (hf : ∀ buf a, f buf a = buf ++ f [] a) (l : List α) :
    ∀ buf : List Byte, l.foldl f buf = buf ++ l.flatMap (f []) := by
  induction l with
  | nil => intro buf; simp
  | cons a as ih =>
    intro buf
    rw [List.foldl_cons, ih, hf buf a]
    simp

theorem writeQuestion_append (buf : List Byte) (q : DNSResourceRecord) :
    writeQuestion buf q = buf ++ writeQuestion [] q := by
  simp [writeQuestion, writeUint16, writeDomainName_eq]

theorem writeResourceRecord_append (buf : List Byte) (r : DNSResourceRecord) :
    writeResourceRecord buf r = buf ++ writeResourceRecord [] r := by
  simp [writeResourceRecord, writeUint16, writeUint32, writeBytes, writeDomainName_eq]

theorem writeResponse_eq (parts : ResponseParts) :
    writeResponse parts =
      writeHeader [] parts.responseHeader ++
        parts.queryResourceRecords.flatMap (writeQuestion []) ++
        parts.answerResourceRecords.flatMap (writeResourceRecord []) ++
        parts.authorityResourceRecords.flatMap (writeResourceRecord []) ++
        parts.additionalResourceRecords.flatMap (writeResourceRecord []) := by
  simp only [writeResponse]
  rw [foldl_write_eq _ writeResourceRecord_append, foldl_write_eq _ writeResourceRecord_append,
    foldl_write_eq _ writeResourceRecord_append, foldl_write_eq _ writeQuestion_append]

theorem writeHeader_eq (h : DNSHeader) :
    writeHeader [] h =
      [toByte (h.TransactionID / 256), toByte h.TransactionID,
       toByte (h.Flags / 256), toByte h.Flags,
       toByte (h.NumQuestions / 256), toByte h.NumQuestions,
       toByte (h.NumAnswers / 256), toByte h.NumAnswers,
       toByte (h.NumAuthorities / 256), toByte h.NumAuthorities,
       toByte (h.NumAdditionals / 256), toByte h.NumAdditionals] := by
  simp [writeHeader, writeUint16]

/-! ## The claims on the responder -/

/-- C2 (as amended): whenever `HandleDNSClient` produces a response, the
response is the header followed by one question for every entry of the
question list and one record for every entry of the answer, authority and
additional lists; qdcount equals the number of questions, nscount and arcount
are zero and the authority and additional lists are empty, and ancount equals
the number of answers modulo 65536, hence the number of answers when there are
fewer than 65536; a store error changes none of this. -/
theorem HandleDNSClient_counts (req : List Byte) (store : Option (List NameBinding))
    (resp : List Byte) (h : HandleDNSClient req store = Outcome.ok resp) :
    ∃ parts, assembleResponse req store = Outcome.ok parts ∧
      resp = writeHeader [] parts.responseHeader ++
        parts.queryResourceRecords.flatMap (writeQuestion []) ++
        parts.answerResourceRecords.flatMap (writeResourceRecord []) ++
        parts.authorityResourceRecords.flatMap (writeResourceRecord []) ++
        parts.additionalResourceRecords.flatMap (writeResourceRecord []) ∧
      parts.responseHeader.NumQuestions = parts.queryResourceRecords.length ∧
      parts.responseHeader.NumAnswers = parts.answerResourceRecords.length % 65536 ∧
      (parts.answerResourceRecords.length < 65536 →
        parts.responseHeader.NumAnswers = parts.answerResourceRecords.length) ∧
      parts.responseHeader.NumAuthorities = parts.authorityResourceRecords.length ∧
      parts.authorityResourceRecords = [] ∧
      parts.responseHeader.NumAdditionals = parts.additionalResourceRecords.length ∧
      parts.additionalResourceRecords = [] := by
  obtain ⟨parts, hp, hresp⟩ := HandleDNSClient_ok req store resp h
  obtain ⟨rest, hq, hl, hh⟩ := assembleResponse_ok req store parts hp
  obtain ⟨hb, hc, _⟩ := lookupLoop_shape store _ _ _ _ _ _ _ hl
  have hlen := readQuestions_length _ _ _ _ hq
  refine ⟨parts, hp, ?_, ?_, ?_, ?_, ?_, hb, ?_, hc⟩
  · rw [hresp, writeResponse_eq]
  · rw [hh]; exact hlen.symm
  · rw [hh]
  · intro hlt
    rw [hh]
    exact Nat.mod_eq_of_lt hlt
  · rw [hh, hb]; rfl
  · rw [hh, hc]; rfl

/-- Witness of C2: the question `a` of type 1 and class 1 against a store
holding the binding `a`. -/
theorem HandleDNSClient_counts_witness :
    ∃ parts,
      assembleResponse [18, 52, 1, 0, 0, 1, 0, 0, 0, 0, 0, 0, 1, 97, 0, 0, 1, 0, 1]
        (some [⟨[97], [0, 0, 0, 0, 0, 0, 0, 0, 0, 0, 255, 255, 10, 1, 2, 3]⟩]) =
        Outcome.ok parts ∧
      ([18, 52, 128, 0, 0, 1, 0, 1, 0, 0, 0, 0, 1, 97, 0, 0, 1, 0, 1,
        1, 97, 0, 0, 1, 0, 1, 0, 0, 122, 105, 0, 4, 10, 1, 2, 3] : List Byte) =
        writeHeader [] parts.responseHeader ++
        parts.queryResourceRecords.flatMap (writeQuestion []) ++
        parts.answerResourceRecords.flatMap (writeResourceRecord []) ++
        parts.authorityResourceRecords.flatMap (writeResourceRecord []) ++
        parts.additionalResourceRecords.flatMap (writeResourceRecord []) ∧
      parts.responseHeader.NumQuestions = parts.queryResourceRecords.length ∧
      parts.responseHeader.NumAnswers = parts.answerResourceRecords.length % 65536 ∧
      (parts.answerResourceRecords.length < 65536 →
        parts.responseHeader.NumAnswers = parts.answerResourceRecords.length) ∧
      parts.responseHeader.NumAuthorities = parts.authorityResourceRecords.length ∧
      parts.authorityResourceRecords = [] ∧
      parts.responseHeader.NumAdditionals = parts.additionalResourceRecords.length ∧
      parts.additionalResourceRecords = [] :=
  HandleDNSClient_counts [18, 52, 1, 0, 0, 1, 0, 0, 0, 0, 0, 0, 1, 97, 0, 0, 1, 0, 1]
    (some [⟨[97], [0, 0, 0, 0, 0, 0, 0, 0, 0, 0, 255, 255, 10, 1, 2, 3]⟩]) _ (by decide)

/-- C2 as stated fails when 65536 answers are serialised: for the question `a`
of type 1 and class 1 and a store of 65536 bindings named `a`, the response is
assembled with 65536 answer records and the header field ancount 0. -/
theorem HandleDNSClient_counts_overflow :
    ∃ parts,
      assembleResponse [0, 0, 0, 0, 0, 1, 0, 0, 0, 0, 0, 0, 1, 97, 0, 0, 1, 0, 1]
        (some (List.replicate 65536 ⟨[97], [0, 0, 0, 0, 0, 0, 0, 0, 0, 0, 255, 255, 10, 1, 2, 3]⟩)) =
        Outcome.ok parts ∧
      parts.answerResourceRecords.length = 65536 ∧
      parts.responseHeader.NumAnswers = 0 := by
  have h2 : readQuestions 1 [1, 97, 0, 0, 1, 0, 1] =
      Outcome.ok ([⟨[97], 1, 1, 0, 0, []⟩], []) := by decide
  have h3 := dbLookup_eq ⟨[97], 1, 1, 0, 0, []⟩
    (List.replicate 65536 ⟨[97], [0, 0, 0, 0, 0, 0, 0, 0, 0, 0, 255, 255, 10, 1, 2, 3]⟩) rfl rfl
    (by
      intro n hn
      rw [List.eq_of_mem_replicate hn]
      rfl)
  rw [List.filter_replicate_of_pos (by decide), List.map_replicate] at h3
  have h4 := assembleResponse_intro [0, 0, 0, 0, 0, 1, 0, 0, 0, 0, 0, 0, 1, 97, 0, 0, 1, 0, 1]
    _ _ _ _ _ _ h2 (lookupLoop_single _ _ _ _ _ h3)
  rw [List.length_replicate, Nat.mod_self] at h4
  exact ⟨⟨⟨0, 32768, 1, 0, 0, 0⟩, [⟨[97], 1, 1, 0, 0, []⟩],
    List.replicate 65536 ⟨[97], 1, 1, 31337, 4, [10, 1, 2, 3]⟩, [], []⟩, h4,
    List.length_replicate _ _, rfl⟩

/-- C3: for every request of at least 12 bytes for which `HandleDNSClient`
produces a response, the response header has the transaction id read from the
first two bytes of the request and the flags 0x8000; the response starts with
the 12 bytes of that header, so its first two bytes are the first two bytes of
the request and its next two bytes are 0x80 0x00, whatever flags the request
carried. -/
theorem HandleDNSClient_header_echo (req : List Byte) (store : Option (List NameBinding))
    (resp : List Byte) (hlen : 12 ≤ req.length)
    (h : HandleDNSClient req store = Outcome.ok resp) :
    ∃ parts tail, assembleResponse req store = Outcome.ok parts ∧
      parts.responseHeader.TransactionID = (binaryReadHeader req).1.TransactionID ∧
      parts.responseHeader.Flags = 0x8000 ∧
      resp = writeHeader [] parts.responseHeader ++ tail ∧
      (writeHeader [] parts.responseHeader).length = 12 ∧
      resp.take 2 = req.take 2 ∧ (resp.drop 2).take 2 = [0x80, 0x00] := by
  obtain ⟨parts, hp, hresp⟩ := HandleDNSClient_ok req store resp h
  obtain ⟨rest, _, _, hh⟩ := assembleResponse_ok req store parts hp
  refine ⟨parts,
    parts.queryResourceRecords.flatMap (writeQuestion []) ++
      (parts.answerResourceRecords.flatMap (writeResourceRecord []) ++
        (parts.authorityResourceRecords.flatMap (writeResourceRecord []) ++
          parts.additionalResourceRecords.flatMap (writeResourceRecord []))),
    hp, by rw [hh], by rw [hh]; rfl, ?_, by rw [writeHeader_eq]; rfl, ?_⟩
  · rw [hresp, writeResponse_eq]
    simp only [List.append_assoc]
  · match req, hlen with
    | b0 :: b1 :: b2 :: b3 :: b4 :: b5 :: b6 :: b7 :: b8 :: b9 :: b10 :: b11 :: body, _ =>
      have htx : parts.responseHeader.TransactionID = be16 b0 b1 := by rw [hh]; rfl
      have hfl : parts.responseHeader.Flags = 32768 := by rw [hh]; rfl
      rw [hresp, writeResponse_eq, writeHeader_eq, htx, hfl, toByte_be16_hi, toByte_be16_lo]
      refine ⟨by simp, ?_⟩
      simp only [List.cons_append, List.drop_succ_cons, List.drop_zero, List.take_succ_cons,
        List.take_zero, List.cons.injEq, and_true]
      exact ⟨by decide, by decide⟩

/-- Witness of C3: a request with transaction id 0x1234 and flags 0x0100. -/
theorem HandleDNSClient_header_echo_witness :
    ∃ parts tail,
      assembleResponse [18, 52, 1, 0, 0, 1, 0, 0, 0, 0, 0, 0, 1, 97, 0, 0, 1, 0, 1] none =
        Outcome.ok parts ∧
      parts.responseHeader.TransactionID =
        (binaryReadHeader
          [18, 52, 1, 0, 0, 1, 0, 0, 0, 0, 0, 0, 1, 97, 0, 0, 1, 0, 1]).1.TransactionID ∧
      parts.responseHeader.Flags = 0x8000 ∧
      ([18, 52, 128, 0, 0, 1, 0, 0, 0, 0, 0, 0, 1, 97, 0, 0, 1, 0, 1] : List Byte) =
        writeHeader [] parts.responseHeader ++ tail ∧
      (writeHeader [] parts.responseHeader).length = 12 ∧
      ([18, 52, 128, 0, 0, 1, 0, 0, 0, 0, 0, 0, 1, 97, 0, 0, 1, 0, 1] : List Byte).take 2 =
        ([18, 52, 1, 0, 0, 1, 0, 0, 0, 0, 0, 0, 1, 97, 0, 0, 1, 0, 1] : List Byte).take 2 ∧
      (([18, 52, 128, 0, 0, 1, 0, 0, 0, 0, 0, 0, 1, 97, 0, 0, 1, 0, 1] : List Byte).drop 2).take 2 =
        [0x80, 0x00] :=
  HandleDNSClient_header_echo [18, 52, 1, 0, 0, 1, 0, 0, 0, 0, 0, 0, 1, 97, 0, 0, 1, 0, 1]
    none _ (by decide) (by decide)

theorem readDomainNameLoop_error_rest (fuel : Nat) :
    ∀ (domainName : List Byte) (b : Byte) (buf name : List Byte) (e : GoError)
      (rest : List Byte),
      readDomainNameLoop fuel domainName b none buf = Outcome.ok ((name, some e), rest) →
      rest = [] := by
  induction fuel with
  | zero =>
    intro domainName b buf name e rest h
    by_cases hb : b = 0
    · rw [readDomainNameLoop_exit _ _ _ _ _ (Or.inl hb)] at h
      simp at h
    · unfold readDomainNameLoop at h
      rw [if_pos ⟨hb, rfl⟩] at h
      cases h
  | succ f ih =>
    intro domainName b buf name e rest h
    by_cases hb : b = 0
    · rw [readDomainNameLoop_exit _ _ _ _ _ (Or.inl hb)] at h
      simp at h
    · rw [readDomainNameLoop_step f domainName b buf hb] at h
      cases hd : buf.drop b.val with
      | nil =>
        rw [hd] at h
        simp only [ReadByte] at h
        rw [readDomainNameLoop_exit _ _ _ _ _ (Or.inr (by simp))] at h
        simp only [Outcome.ok.injEq, Prod.mk.injEq] at h
        exact h.2.symm
      | cons b1 buf2 =>
        rw [hd] at h
        simp only [ReadByte] at h
        exact ih _ _ _ _ _ _ h

theorem readDomainName_error_rest (buf name : List Byte) (e : GoError) (rest : List Byte)
    (h : readDomainName buf = Outcome.ok ((name, some e), rest)) : rest = [] := by
  cases buf with
  | nil =>
    simp only [readDomainName, ReadByte] at h
    rw [readDomainNameLoop_exit _ _ _ _ _ (Or.inr (by simp))] at h
    simp only [Outcome.ok.injEq, Prod.mk.injEq] at h
    exact h.2.symm
  | cons b tail =>
    simp only [readDomainName, ReadByte] at h
    exact readDomainNameLoop_error_rest _ _ _ _ _ _ _ h

/-- Every decode failure of a question name ends in a panic: when
`readDomainName` returns an error the buffer is empty, and the `Uint16` read of
the type that follows indexes an empty slice. -/
theorem readQuestions_panics_of_error (n : Nat) (buf name : List Byte) (e : GoError)
    (rest : List Byte) (h : readDomainName buf = Outcome.ok ((name, some e), rest)) :
    readQuestions (n + 1) buf = Outcome.panic := by
  have hrest := readDomainName_error_rest buf name e rest h
  subst hrest
  unfold readQuestions
  rw [h]
  rfl

/-- C5: the code panics on the truncated request of the claim: a header with
qdcount 2 followed by the single well-formed question `a` of type 1 and class
1. The second `readDomainName` returns `io.EOF`, which is only logged, and the
`Uint16` read of the type that follows indexes an empty slice; whatever the
store returns, no response with one question is produced. -/
theorem HandleDNSClient_truncated_panics (store : Option (List NameBinding)) :
    HandleDNSClient [18, 52, 1, 0, 0, 2, 0, 0, 0, 0, 0, 0, 1, 97, 0, 0, 1, 0, 1] store =
      Outcome.panic := by
  have h1 : readQuestions 2 [1, 97, 0, 0, 1, 0, 1] = Outcome.panic := by decide
  have h2 : binaryReadHeader [18, 52, 1, 0, 0, 2, 0, 0, 0, 0, 0, 0, 1, 97, 0, 0, 1, 0, 1] =
      (⟨4660, 256, 2, 0, 0, 0⟩, none, [1, 97, 0, 0, 1, 0, 1]) := rfl
  simp only [HandleDNSClient, assembleResponse, h2, h1]

/-- C7: for every response `HandleDNSClient` produces, the response is the
header, the questions and then one record for every entry of the answer,
authority and additional lists, and every such record is written as its name,
type, class, time to live, two length bytes and its resource data, where the
big-endian value of the two length bytes equals the number of bytes of the
resource data written after them. -/
theorem writeResourceRecord_length_matches (req : List Byte)
    (store : Option (List NameBinding)) (resp : List Byte)
    (h : HandleDNSClient req store = Outcome.ok resp) :
    ∃ parts, assembleResponse req store = Outcome.ok parts ∧
      resp = writeHeader [] parts.responseHeader ++
        parts.queryResourceRecords.flatMap (writeQuestion []) ++
        parts.answerResourceRecords.flatMap (writeResourceRecord []) ++
        parts.authorityResourceRecords.flatMap (writeResourceRecord []) ++
        parts.additionalResourceRecords.flatMap (writeResourceRecord []) ∧
      ∀ r ∈ parts.answerResourceRecords ++ parts.authorityResourceRecords ++
          parts.additionalResourceRecords,
        ∃ hi lo : Byte,
          (∀ buf : List Byte,
            writeResourceRecord buf r =
              (writeDomainName buf r.DomainName).1 ++
                [toByte (r.Type_ / 256), toByte r.Type_,
                 toByte (r.Class / 256), toByte r.Class] ++
                [toByte (r.TimeToLive / 16777216), toByte (r.TimeToLive / 65536),
                 toByte (r.TimeToLive / 256), toByte r.TimeToLive] ++
                [hi, lo] ++ r.ResourceData) ∧
          be16 hi lo = r.ResourceData.length := by
  obtain ⟨parts, hp, hresp⟩ := HandleDNSClient_ok req store resp h
  obtain ⟨rest, _, hl, _⟩ := assembleResponse_ok req store parts hp
  obtain ⟨hb, hc, ha⟩ := lookupLoop_shape store _ _ _ _ _ _ _ hl
  refine ⟨parts, hp, by rw [hresp, writeResponse_eq], ?_⟩
  intro r hr
  rw [hb, hc, List.append_nil, List.append_nil] at hr
  obtain ⟨hlen, hdata⟩ := ha (by simp) r hr
  refine ⟨toByte (r.ResourceDataLength / 256), toByte r.ResourceDataLength, ?_, ?_⟩
  · intro buf
    simp [writeResourceRecord, writeUint16, writeUint32, writeBytes]
  · rw [hlen, hdata]
    decide

/-- Witness of C7: the question `a` of type 1 and class 1 against a store
holding the binding `a`; the one answer is written with the length bytes 0, 4
and the four bytes 10, 1, 2, 3. -/
theorem writeResourceRecord_length_matches_witness :
    ∃ parts,
      assembleResponse [18, 52, 1, 0, 0, 1, 0, 0, 0, 0, 0, 0, 1, 97, 0, 0, 1, 0, 1]
        (some [⟨[97], [0, 0, 0, 0, 0, 0, 0, 0, 0, 0, 255, 255, 10, 1, 2, 3]⟩]) =
        Outcome.ok parts ∧
      ([18, 52, 128, 0, 0, 1, 0, 1, 0, 0, 0, 0, 1, 97, 0, 0, 1, 0, 1,
        1, 97, 0, 0, 1, 0, 1, 0, 0, 122, 105, 0, 4, 10, 1, 2, 3] : List Byte) =
        writeHeader [] parts.responseHeader ++
        parts.queryResourceRecords.flatMap (writeQuestion []) ++
        parts.answerResourceRecords.flatMap (writeResourceRecord []) ++
        parts.authorityResourceRecords.flatMap (writeResourceRecord []) ++
        parts.additionalResourceRecords.flatMap (writeResourceRecord []) ∧
      ∀ r ∈ parts.answerResourceRecords ++ parts.authorityResourceRecords ++
          parts.additionalResourceRecords,
        ∃ hi lo : Byte,
          (∀ buf : List Byte,
            writeResourceRecord buf r =
              (writeDomainName buf r.DomainName).1 ++
                [toByte (r.Type_ / 256), toByte r.Type_,
                 toByte (r.Class / 256), toByte r.Class] ++
                [toByte (r.TimeToLive / 16777216), toByte (r.TimeToLive / 65536),
                 toByte (r.TimeToLive / 256), toByte r.TimeToLive] ++
                [hi, lo] ++ r.ResourceData) ∧
          be16 hi lo = r.ResourceData.length :=
  writeResourceRecord_length_matches
    [18, 52, 1, 0, 0, 1, 0, 0, 0, 0, 0, 0, 1, 97, 0, 0, 1, 0, 1]
    (some [⟨[97], [0, 0, 0, 0, 0, 0, 0, 0, 0, 0, 255, 255, 10, 1, 2, 3]⟩]) _ (by decide)

set_option maxRecDepth 100000 in
/-- C10: the code panics on a request whose body ends before the questions the
header counts: on the 512-byte datagram with qdcount 101 and a body of 500
zero bytes, and on the 12-byte request with qdcount 1, whatever the store
returns, `binary.BigEndian.Uint16` is called on fewer than two bytes and
`HandleDNSClient` ends in a panic. -/
theorem HandleDNSClient_panics_on_short_body (store : Option (List NameBinding)) :
    HandleDNSClient ([0, 0, 0, 0, 0, 101, 0, 0, 0, 0, 0, 0] ++ List.replicate 500 0) store =
      Outcome.panic ∧
    HandleDNSClient [0, 0, 0, 0, 0, 1, 0, 0, 0, 0, 0, 0] store = Outcome.panic := by
  have h1 : readQuestions 101 (List.replicate 500 0) = Outcome.panic := by decide
  have h2 : readQuestions 1 [] = Outcome.panic := by decide
  have h3 : binaryReadHeader ([0, 0, 0, 0, 0, 101, 0, 0, 0, 0, 0, 0] ++ List.replicate 500 0) =
      (⟨0, 0, 101, 0, 0, 0⟩, none, List.replicate 500 0) := rfl
  have h4 : binaryReadHeader [0, 0, 0, 0, 0, 1, 0, 0, 0, 0, 0, 0] =
      (⟨0, 0, 1, 0, 0, 0⟩, none, []) := rfl
  constructor
  · simp only [HandleDNSClient, assembleResponse, h3, h1]
  · simp only [HandleDNSClient, assembleResponse, h4, h2]

end Dns
